import Mathlib

/-!
Shallow embedding of the shiritori bot in `bot.py` (repository
`amimoto/discord-iha-bot`).

Modelling conventions:
* Python strings are modelled as `List Char` (`Str`).  `str.lower()` is
  modelled on the ASCII range (the only range the tokenizer admits), and
  `str.strip()` strips the six ASCII whitespace characters Python strips.
* Python `datetime` timestamps are modelled as `Nat`.
* The peewee rows of the six tables are records; `AUTOINCREMENT` ids are
  drawn from explicit counters.  Foreign keys to `Words` and `Users` are
  modelled by the unique columns they resolve to (`Words.word`,
  `Users.discord_user_id`); both columns are declared `unique=True` in the
  schema, so row ids and these columns are in bijection.
* The process-wide dict caches (`_channel_cache`, `_word_cache`,
  `_user_cache`) are association lists; a dict store is a prepend, so a
  lookup sees the most recent binding.  The cached channel record is a
  snapshot of the row object: `game_start` mutates the cached object in
  place (so the model updates the cache entry), while `game_ending`
  mutates a freshly fetched record (so the model leaves the cache entry
  untouched) — exactly mirroring the aliasing in the source.
* Discord reactions and replies are collected as a list of `Effect`
  values in call order; the human-readable f-strings of the source are
  modelled by the structured `RejectReason` payloads they interpolate.
-/

namespace IhaBot

/-- A Python string, modelled as its list of characters. -/
abbrev Str := List Char

/-- `WORD_SOURCE_LIST = 1` (bot.py line 47). -/
def WORD_SOURCE_LIST : Nat := 1

/-- `WORD_SOURCE_REJECTED = 2` (bot.py line 48). -/
def WORD_SOURCE_REJECTED : Nat := 2

/-- `WORD_SOURCE_GAME = 3` (bot.py line 49). -/
def WORD_SOURCE_GAME : Nat := 3

/-- `WORD_SOURCE_VETTED = 4` (bot.py line 50). -/
def WORD_SOURCE_VETTED : Nat := 4

/-- `MESSAGE_STATE_UNKNOWN = 0` (bot.py line 52). -/
def MESSAGE_STATE_UNKNOWN : Nat := 0

/-- `MESSAGE_STATE_OK = 1` (bot.py line 53). -/
def MESSAGE_STATE_OK : Nat := 1

/-- `MESSAGE_STATE_REPEAT = 2` (bot.py line 54). -/
def MESSAGE_STATE_REPEAT : Nat := 2

/-- `MESSAGE_STATE_REJECTED = 3` (bot.py line 55). -/
def MESSAGE_STATE_REJECTED : Nat := 3

/-- The delimiter class of `re.split('([ \(:!?])', ...)` in
`parse_message` (bot.py line 202). -/
def isSplitDelim (c : Char) : Bool :=
  c == ' ' || c == '(' || c == ':' || c == '!' || c == '?'

/-- `re.split` with a capturing group: the pieces between delimiters
(possibly empty), with every delimiter kept as its own one-character
element, exactly as CPython returns them. -/
def reSplitKeep : Str → List Str
  | [] => [[]]
  | c :: rest =>
    if isSplitDelim c then
      [] :: [c] :: reSplitKeep rest
    else
      match reSplitKeep rest with
      | [] => [[c]]
      | p :: ps => (c :: p) :: ps

/-- `re.search(r'^[a-z]', element)` (bot.py line 206): the element is
nonempty and its first character is an ASCII lowercase letter. -/
def startsLowerAlpha : Str → Bool
  | [] => false
  | c :: _ => 97 ≤ c.toNat && c.toNat ≤ 122

/-- The accumulation loop of `parse_message` (bot.py lines 204-208):
skip the single-space elements, stop at the first element that does not
begin with an ASCII lowercase letter, collect the rest. -/
def collectWords : List Str → List Str
  | [] => []
  | e :: rest =>
    if e == [' '] then collectWords rest
    else if !startsLowerAlpha e then []
    else e :: collectWords rest

/-- Python `str.lower()` restricted to ASCII (the tokenizer only ever
keeps elements headed by an ASCII letter). -/
def lowerChar (c : Char) : Char :=
  if 65 ≤ c.toNat && c.toNat ≤ 90 then Char.ofNat (c.toNat + 32) else c

/-- `clean_content.lower()` over a whole string. -/
def toLowerStr (s : Str) : Str := s.map lowerChar

/-- The six ASCII characters Python `str.strip()` removes. -/
def isPySpace (c : Char) : Bool :=
  let n := c.toNat
  n == 32 || n == 9 || n == 10 || n == 13 || n == 11 || n == 12

/-- Python `str.rstrip()`: drop trailing whitespace. -/
def rstripStr : Str → Str
  | [] => []
  | c :: rest =>
    match rstripStr rest with
    | [] => if isPySpace c then [] else [c]
    | r => c :: r

/-- Python `str.strip()`: drop leading then trailing whitespace. -/
def stripStr (s : Str) : Str := rstripStr (s.dropWhile isPySpace)

/-- `word.lower().strip()`, the normalization of `word_upsert`
(bot.py line 260). -/
def normalizeWord (w : Str) : Str := stripStr (toLowerStr w)

/-- `Iha.parse_message` (bot.py lines 189-210): lowercase the clean
content, split on the delimiter class keeping delimiters, then run the
accumulation loop. -/
def parse_message (clean_content : Str) : List Str :=
  collectWords (reSplitKeep (toLowerStr clean_content))

/-- Python `word[0]` on the (always nonempty) token. -/
def headCh (s : Str) : Char := s.headD ' '

/-- Python `word[-1]` on the (always nonempty) stored word. -/
def lastCh (s : Str) : Char := s.getLastD ' '

/-- A row of the `Words` table (bot.py lines 111-114). -/
structure WordRow where
  id : Nat
  word : Str
  source : Option Nat
deriving DecidableEq, Repr

/-- A row of the `Channels` table (bot.py lines 120-125). -/
structure ChannelRow where
  id : Nat
  discord_id : Nat
  name : Option Str
  current_game : Option Nat
  game_running : Bool
deriving DecidableEq, Repr

/-- A row of the `Games` table (bot.py lines 127-130). -/
structure GameRow where
  id : Nat
  timestamp : Nat
  channel : Nat
deriving DecidableEq, Repr

/-- A row of the `Users` table (bot.py lines 132-135). -/
structure UserRow where
  id : Nat
  discord_user_id : Nat
  name : Option Str
deriving DecidableEq, Repr

/-- A row of the `Messages` table (bot.py lines 137-145): one recorded
turn.  `word` holds the unique text of the referenced `Words` row and
`user` the unique `discord_user_id` of the referenced `Users` row. -/
structure MessageRow where
  id : Nat
  timestamp : Nat
  state : Nat
  content : Str
  word : Str
  game : Option Nat
  channel : Nat
  user : Nat
deriving DecidableEq, Repr

/-- The database plus the `Iha` client's in-process caches and the
autoincrement counters of the tables. -/
structure IhaState where
  words : List WordRow
  bannedWords : List Str
  channels : List ChannelRow
  games : List GameRow
  users : List UserRow
  messages : List MessageRow
  channelCache : List (Nat × Option ChannelRow)
  wordCache : List (Str × WordRow)
  userCache : List (Nat × UserRow)
  nextWordId : Nat
  nextChannelId : Nat
  nextGameId : Nat
  nextUserId : Nat
  nextMessageId : Nat
deriving DecidableEq, Repr

/-- A Discord channel as the gateway hands it to the bot. -/
structure DiscordChannel where
  id : Nat
  name : Str
deriving DecidableEq, Repr

/-- A Discord user as the gateway hands it to the bot. -/
structure DiscordUser where
  id : Nat
  name : Str
  discriminator : Str
deriving DecidableEq, Repr

/-- An incoming Discord message as `channel_message` consumes it. -/
structure DiscordMessage where
  channel : DiscordChannel
  author : DiscordUser
  clean_content : Str
  created_at : Nat
deriving DecidableEq, Repr

/-- The reactions the bot adds (bot.py lines 57-63). -/
inductive Emoji
  | nay
  | thumbUp
  | thumbDown
  | owl
  | question
  | thinking
  | recycle
deriving DecidableEq, Repr

/-- The structured content of the reply f-strings of `channel_message`:
`"{word} has previously been rejected."` (line 383),
`"The word must start with the letter '{last_letter.upper()}'"`
(line 419), and `"The word was previously used by <@{...}> {timeago}"`
(lines 438-440, carrying the prior author's discord id and the prior
turn's raw timestamp that `timeago.format` renders). -/
inductive RejectReason
  | previouslyRejected (word : Str)
  | mustStartWith (letter : Char)
  | previouslyUsed (userId : Nat) (timestamp : Nat)
deriving DecidableEq, Repr

/-- An outbound side effect: `message.add_reaction(...)` or
`message.reply(...)`, in call order. -/
inductive Effect
  | react (e : Emoji)
  | reply (reasons : List RejectReason)
deriving DecidableEq, Repr

/-- `Channels.get(discord_id = ...)`: first row matching the discord id
(the bot never creates two rows for one discord id). -/
def lookupChannel (channels : List ChannelRow) (d : Nat) : Option ChannelRow :=
  channels.find? (fun c => c.discord_id == d)

/-- `row.save()` on a fetched row: update the row with the same primary
key in place. -/
def replaceChannel (channels : List ChannelRow) (c : ChannelRow) : List ChannelRow :=
  channels.map (fun x => if x.id == c.id then c else x)

/-- `Iha.channel_get` (bot.py lines 213-231): consult `_channel_cache`
first; on a miss fetch from the `Channels` table and cache the result
(also caching a `None` marker for unknown channels). -/
def channel_get (s : IhaState) (discord_id : Nat) : IhaState × Option ChannelRow :=
  match s.channelCache.lookup discord_id with
  | some v => (s, v)
  | none =>
    match lookupChannel s.channels discord_id with
    | some chan =>
      ({ s with channelCache := (discord_id, some chan) :: s.channelCache }, some chan)
    | none =>
      ({ s with channelCache := (discord_id, none) :: s.channelCache }, none)

/-- `Iha.word_upsert` (bot.py lines 250-269): normalize, consult
`_word_cache`, otherwise `Words.get_or_create`; a freshly created row
gets the given `source` and is saved, an existing row's `source` is left
alone; the resolved row is cached. -/
def word_upsert (s : IhaState) (w : Str) (source : Option Nat) : IhaState × WordRow :=
  let word := normalizeWord w
  match s.wordCache.lookup word with
  | some wrec => (s, wrec)
  | none =>
    match s.words.find? (fun r => r.word == word) with
    | some wrec => ({ s with wordCache := (word, wrec) :: s.wordCache }, wrec)
    | none =>
      let wrec : WordRow := { id := s.nextWordId, word := word, source := source }
      ({ s with words := s.words ++ [wrec],
                nextWordId := s.nextWordId + 1,
                wordCache := (word, wrec) :: s.wordCache }, wrec)

/-- `Iha.user_upsert` (bot.py lines 233-247): consult `_user_cache`,
otherwise `Users.get_or_create`; a freshly created row gets the display
name `f"{user.name}#{user.discriminator}"` and is saved; the resolved
row is cached. -/
def user_upsert (s : IhaState) (u : DiscordUser) : IhaState × UserRow :=
  match s.userCache.lookup u.id with
  | some urec => (s, urec)
  | none =>
    match s.users.find? (fun r => r.discord_user_id == u.id) with
    | some urec => ({ s with userCache := (u.id, urec) :: s.userCache }, urec)
    | none =>
      let urec : UserRow := { id := s.nextUserId, discord_user_id := u.id,
                              name := some (u.name ++ '#' :: u.discriminator) }
      ({ s with users := s.users ++ [urec],
                nextUserId := s.nextUserId + 1,
                userCache := (u.id, urec) :: s.userCache }, urec)

/-- `Iha.channel_add` (bot.py lines 295-306): `Channels.get_or_create`
by discord id (a fresh row has `name = None`), update the name when it
differs (for a fresh row `None` always differs from the channel's
name), and cache the resulting record. -/
def channel_add (s : IhaState) (ch : DiscordChannel) : IhaState × ChannelRow :=
  match lookupChannel s.channels ch.id with
  | some chanR =>
    if chanR.name == some ch.name then
      ({ s with channelCache := (ch.id, some chanR) :: s.channelCache }, chanR)
    else
      let chanR' := { chanR with name := some ch.name }
      ({ s with channels := replaceChannel s.channels chanR',
                channelCache := (ch.id, some chanR') :: s.channelCache }, chanR')
  | none =>
    let chanR : ChannelRow := { id := s.nextChannelId, discord_id := ch.id,
                                name := some ch.name, current_game := none,
                                game_running := false }
    ({ s with channels := s.channels ++ [chanR],
              nextChannelId := s.nextChannelId + 1,
              channelCache := (ch.id, some chanR) :: s.channelCache }, chanR)

/-- The error taxonomy of the game state machine: the
`Exception("Not a game channel")`, `Exception("Game is already running
in {name}")` and `Exception("No game is currently running in {name}")`
raises of `game_start`/`game_ending`, plus peewee's `DoesNotExist`. -/
inductive IhaError
  | notRegistered
  | alreadyRunning (name : Option Str)
  | notRunning (name : Option Str)
  | doesNotExist
deriving DecidableEq, Repr

/-- `Iha.game_start` (bot.py lines 473-496).  The registration and
already-running guards read the record `channel_get` yields — the
cached object.  On success the new `Games` row is created and the
cached object itself is mutated and saved, so both the table row and
the cache entry are updated. -/
def game_start (s : IhaState) (ch : DiscordChannel) (now : Nat) :
    IhaState × Except IhaError GameRow :=
  let cg := channel_get s ch.id
  match cg.2 with
  | none => (cg.1, Except.error IhaError.notRegistered)
  | some chan =>
    if chan.game_running then
      (cg.1, Except.error (IhaError.alreadyRunning chan.name))
    else
      let game : GameRow := { id := cg.1.nextGameId, timestamp := now, channel := chan.id }
      let chan' := { chan with current_game := some game.id, game_running := true }
      ({ cg.1 with games := cg.1.games ++ [game],
                   nextGameId := cg.1.nextGameId + 1,
                   channels := replaceChannel cg.1.channels chan',
                   channelCache := (ch.id, some chan') :: cg.1.channelCache },
       Except.ok game)

/-- `Iha.game_ending` (bot.py lines 498-519).  The registration guard
uses `channel_get` (the cache), but the running guard and the mutation
act on a freshly fetched `Channels` row; the fresh row is cleared and
saved while the cached object is left untouched — the cache entry goes
stale. -/
def game_ending (s : IhaState) (ch : DiscordChannel) :
    IhaState × Except IhaError (Option GameRow) :=
  let cg := channel_get s ch.id
  match cg.2 with
  | none => (cg.1, Except.error IhaError.notRegistered)
  | some _ =>
    match lookupChannel cg.1.channels ch.id with
    | none => (cg.1, Except.error IhaError.doesNotExist)
    | some fresh =>
      if !fresh.game_running then
        (cg.1, Except.error (IhaError.notRunning fresh.name))
      else
        let gameOpt := fresh.current_game.bind
          (fun gid => cg.1.games.find? (fun g => g.id == gid))
        let fresh' := { fresh with current_game := none, game_running := false }
        ({ cg.1 with channels := replaceChannel cg.1.channels fresh' },
         Except.ok gameOpt)

/-- `state in [MESSAGE_STATE_UNKNOWN, MESSAGE_STATE_OK]` — the filter of
the chain-check query (bot.py line 407). -/
def isAcceptedState (st : Nat) : Bool :=
  st == MESSAGE_STATE_UNKNOWN || st == MESSAGE_STATE_OK

/-- `order_by(Messages.timestamp.desc()).get()`: the row with the
greatest timestamp (ties broken by list position, which SQL leaves
unspecified). -/
def maxByTimestamp : List MessageRow → Option MessageRow
  | [] => none
  | m :: rest =>
    match maxByTimestamp rest with
    | none => some m
    | some b => if b.timestamp > m.timestamp then some b else some m

/-- The chain-check query of `channel_message` (bot.py lines 402-410):
the most recent `Messages` row of the current game whose state is
`UNKNOWN` or `OK`, inner-joined with `Words` (a row whose word is
missing from the `Words` table would be dropped by the join). -/
def lastValidMessage (words : List WordRow) (msgs : List MessageRow)
    (g : Option Nat) : Option MessageRow :=
  maxByTimestamp (msgs.filter (fun m =>
    words.any (fun w => w.word == m.word) && m.game == g && isAcceptedState m.state))

/-- `Iha.channel_message` (bot.py lines 347-471), the turn validation
pipeline.  Returns the state after the event, the outbound effects in
call order, and the persisted `Messages` row when the move was
accepted. -/
def channel_message (s : IhaState) (msg : DiscordMessage) :
    IhaState × List Effect × Option MessageRow :=
  let cg := channel_get s msg.channel.id
  match cg.2 with
  | none => (cg.1, [], none)
  | some chan =>
    if !chan.game_running then (cg.1, [], none)
    else
      match parse_message msg.clean_content with
      | [word] =>
        let wu := word_upsert cg.1 word (some WORD_SOURCE_GAME)
        let word_rec := wu.2
        let srcRejected := word_rec.source == some WORD_SOURCE_REJECTED
        let reasons1 := if srcRejected then [RejectReason.previouslyRejected word] else []
        let effects1 := if srcRejected then [Effect.react Emoji.thumbDown] else []
        let fromGame := word_rec.source == some WORD_SOURCE_GAME
        let message_state := if fromGame then MESSAGE_STATE_UNKNOWN else MESSAGE_STATE_OK
        let effects2 := if fromGame then effects1 ++ [Effect.react Emoji.thinking] else effects1
        let game_rec := chan.current_game
        let lastOpt := lastValidMessage wu.1.words wu.1.messages game_rec
        let chainFail :=
          match lastOpt with
          | some lm => headCh word != lastCh lm.word
          | none => false
        let effects3 := if chainFail then effects2 ++ [Effect.react Emoji.nay] else effects2
        let reasons2 :=
          match lastOpt with
          | some lm =>
            if headCh word != lastCh lm.word then
              reasons1 ++ [RejectReason.mustStartWith (lastCh lm.word)]
            else reasons1
          | none => reasons1
        let repeats := wu.1.messages.filter
          (fun m => m.game == game_rec && m.word == word_rec.word)
        let effects4 := if repeats.isEmpty then effects3 else effects3 ++ [Effect.react Emoji.recycle]
        let reasons3 :=
          match repeats.head? with
          | some rm => reasons2 ++ [RejectReason.previouslyUsed rm.user rm.timestamp]
          | none => reasons2
        let effects5 := if reasons3.isEmpty then effects4 else effects4 ++ [Effect.reply reasons3]
        let reject := srcRejected || chainFail || !repeats.isEmpty
        if reject then (wu.1, effects5, none)
        else
          let uu := user_upsert wu.1 msg.author
          let mrow : MessageRow := { id := uu.1.nextMessageId,
                                     timestamp := msg.created_at,
                                     state := message_state,
                                     content := msg.clean_content,
                                     word := word_rec.word,
                                     game := game_rec,
                                     channel := chan.id,
                                     user := uu.2.discord_user_id }
          ({ uu.1 with messages := uu.1.messages ++ [mrow],
                       nextMessageId := uu.1.nextMessageId + 1 },
           effects5, some mrow)
      | _ => (cg.1, [], none)

/-- The Python-level failures `channel_sync` can raise. -/
inductive PyError
  | doesNotExist
  | typeErrorMissingSource
deriving DecidableEq, Repr

/-- A historical chat message handed back by `chan.history(...)`. -/
structure HistoryMessage where
  clean_content : Str
  created_at : Nat
deriving DecidableEq, Repr

/-- `Iha.channel_sync` (bot.py lines 271-293).  Two slips in the source
decide its behaviour: `Channels.get(discord_id == channel.id)` passes
the bare local `discord_id` (bound to `channel.id` on the previous
line), so peewee receives the Python value `True` and returns an
arbitrary first row — `DoesNotExist` on an empty table; and
`self.word_upsert(word)` omits the required `source` argument, so the
first history message whose `parse_message` result is nonempty raises
`TypeError` before any `Messages.create` is reached.  The state is
returned unchanged in every case. -/
def channel_sync (s : IhaState) (history : List HistoryMessage) :
    IhaState × Except PyError Unit :=
  match s.channels.head? with
  | none => (s, Except.error PyError.doesNotExist)
  | some _ =>
    if history.any (fun h => !(parse_message h.clean_content).isEmpty) then
      (s, Except.error PyError.typeErrorMissingSource)
    else
      (s, Except.ok ())

/-- The empty database with fresh autoincrement counters. -/
def emptyState : IhaState :=
  { words := [], bannedWords := [], channels := [], games := [], users := [],
    messages := [], channelCache := [], wordCache := [], userCache := [],
    nextWordId := 1, nextChannelId := 1, nextGameId := 1, nextUserId := 1,
    nextMessageId := 1 }

/-- A concrete Discord channel used by the witnesses. -/
def chanG : DiscordChannel := { id := 100, name := ['g'] }

/-- A concrete Discord user used by the witnesses. -/
def userU : DiscordUser := { id := 7, name := ['u'], discriminator := ['1'] }

/-- The word "apple". -/
def appleW : Str := ['a', 'p', 'p', 'l', 'e']

/-- The non-alphabetic token "apple5". -/
def appleFiveW : Str := ['a', 'p', 'p', 'l', 'e', '5']

/-- The message "apple" arriving at time 30. -/
def appleMsg : DiscordMessage :=
  { channel := chanG, author := userU, clean_content := appleW, created_at := 30 }

/-- The message "apple5" arriving at time 30. -/
def appleFiveMsg : DiscordMessage :=
  { channel := chanG, author := userU, clean_content := appleFiveW, created_at := 30 }

/-- The state after `@iha add` in channel `chanG`. -/
def sAfterAdd : IhaState := (channel_add emptyState chanG).1

/-- The state after `@iha add` then `@iha start` (at time 10). -/
def sAfterStart : IhaState := (game_start sAfterAdd chanG 10).1

/-- The state after `@iha add`, `@iha start`, `@iha end`. -/
def sAfterEnd : IhaState := (game_ending sAfterStart chanG).1

/-- `channel_get` touches nothing but the channel cache. -/
theorem channel_get_state (s : IhaState) (d : Nat) :
    ∃ cc, (channel_get s d).1 = { s with channelCache := cc } := by
  simp only [channel_get]
  rcases h1 : List.lookup d s.channelCache with _ | v
  · simp only [h1]
    rcases h2 : lookupChannel s.channels d with _ | chan
    · simp only [h2]
      exact ⟨_, rfl⟩
    · simp only [h2]
      exact ⟨_, rfl⟩
  · simp only [h1]
    exact ⟨s.channelCache, by simp⟩

/-- `word_upsert` ignores and preserves the channel cache. -/
theorem word_upsert_channelCache (s : IhaState) (cc : List (Nat × Option ChannelRow))
    (w : Str) (src : Option Nat) :
    word_upsert { s with channelCache := cc } w src =
      ({ (word_upsert s w src).1 with channelCache := cc }, (word_upsert s w src).2) := by
  simp only [word_upsert]
  rcases h1 : List.lookup (normalizeWord w) s.wordCache with _ | wrec
  · simp only [h1]
    rcases h2 : List.find? (fun r => r.word == normalizeWord w) s.words with _ | wrec2
    · simp only [h2]
    · simp only [h2]
  · simp only [h1]

/-- `word_upsert` touches nothing but the words table, the word cache
and the word id counter, and only ever appends to the words table. -/
theorem word_upsert_state (s : IhaState) (w : Str) (src : Option Nat) :
    ∃ wl wc n, (word_upsert s w src).1 =
        { s with words := s.words ++ wl, wordCache := wc, nextWordId := n } := by
  simp only [word_upsert]
  rcases h1 : List.lookup (normalizeWord w) s.wordCache with _ | wrec
  · simp only [h1]
    rcases h2 : List.find? (fun r => r.word == normalizeWord w) s.words with _ | wrec2
    · simp only [h2]
      exact ⟨_, _, _, rfl⟩
    · simp only [h2]
      refine ⟨[], (normalizeWord w, wrec2) :: s.wordCache, s.nextWordId, ?_⟩
      simp
  · simp only [h1]
    refine ⟨[], s.wordCache, s.nextWordId, ?_⟩
    simp

/-- `user_upsert` touches nothing but the users table, the user cache
and the user id counter. -/
theorem user_upsert_state (s : IhaState) (u : DiscordUser) :
    ∃ ul uc n, (user_upsert s u).1 =
        { s with users := ul, userCache := uc, nextUserId := n } := by
  simp only [user_upsert]
  rcases h1 : List.lookup u.id s.userCache with _ | urec
  · simp only [h1]
    rcases h2 : List.find? (fun r => r.discord_user_id == u.id) s.users with _ | urec2
    · simp only [h2]
      exact ⟨_, _, _, rfl⟩
    · simp only [h2]
      refine ⟨s.users, (u.id, urec2) :: s.userCache, s.nextUserId, ?_⟩
      simp
  · simp only [h1]
    exact ⟨s.users, s.userCache, s.nextUserId, by simp⟩

/-- Every token the accumulation loop keeps begins with an ASCII
lowercase letter. -/
theorem collectWords_startsLower (es : List Str) :
    ∀ t ∈ collectWords es, startsLowerAlpha t = true := by
  induction es with
  | nil => intro t ht; simp [collectWords] at ht
  | cons e rest ih =>
    intro t ht
    unfold collectWords at ht
    split at ht
    · exact ih t ht
    · split at ht
      · simp at ht
      · rcases List.mem_cons.1 ht with rfl | h
        · simpa using ‹¬(!startsLowerAlpha t) = true›
        · exact ih t h

/-- Every token `parse_message` returns begins with an ASCII lowercase
letter. -/
theorem parse_message_startsLower (c : Str) :
    ∀ t ∈ parse_message c, startsLowerAlpha t = true :=
  collectWords_startsLower _

/-- An ASCII lowercase letter is untouched by `lowerChar`. -/
theorem lowerChar_of_lower (c : Char) (h1 : 97 ≤ c.toNat) : lowerChar c = c := by
  unfold lowerChar
  rw [if_neg]
  simp only [Bool.and_eq_true, decide_eq_true_eq, not_and]
  omega

/-- An ASCII lowercase letter is not Python whitespace. -/
theorem isPySpace_of_lower (c : Char) (h1 : 97 ≤ c.toNat) : isPySpace c = false := by
  unfold isPySpace
  simp only [Bool.or_eq_false_iff, beq_eq_false_iff_ne]
  omega

/-- `rstrip` keeps a non-whitespace head in place. -/
theorem rstripStr_cons_head (c : Char) (l : Str) (hc : isPySpace c = false) :
    headCh (rstripStr (c :: l)) = c ∧ rstripStr (c :: l) ≠ [] := by
  unfold rstripStr
  cases h : rstripStr l with
  | nil => simp [hc, headCh]
  | cons r rs => simp [headCh]

/-- Normalization (`word.lower().strip()`) keeps the first character of
a token that begins with an ASCII lowercase letter, and keeps the token
nonempty. -/
theorem normalizeWord_head (t : Str) (h : startsLowerAlpha t = true) :
    headCh (normalizeWord t) = headCh t ∧ normalizeWord t ≠ [] := by
  cases t with
  | nil => simp [startsLowerAlpha] at h
  | cons c cs =>
    simp only [startsLowerAlpha, Bool.and_eq_true, decide_eq_true_eq] at h
    have hlow : lowerChar c = c := lowerChar_of_lower c h.1
    have hsp : isPySpace c = false := isPySpace_of_lower c h.1
    have : normalizeWord (c :: cs) = rstripStr (c :: cs.map lowerChar) := by
      simp only [normalizeWord, toLowerStr, List.map_cons, hlow, stripStr]
      rw [List.dropWhile_cons_of_neg (by simp [hsp])]
    rw [this]
    have h2 := rstripStr_cons_head c (cs.map lowerChar) hsp
    simpa [headCh] using h2

/-- A `maxByTimestamp` of `none` only happens on the empty list. -/
theorem maxByTimestamp_none (l : List MessageRow)
    (h : maxByTimestamp l = none) : l = [] := by
  cases l with
  | nil => rfl
  | cons m rest =>
    unfold maxByTimestamp at h
    cases h2 : maxByTimestamp rest with
    | none => simp [h2] at h
    | some b2 =>
      simp only [h2] at h
      split at h <;> simp at h

/-- The result of `maxByTimestamp` is an element of the list. -/
theorem maxByTimestamp_mem (l : List MessageRow) (b : MessageRow)
    (h : maxByTimestamp l = some b) : b ∈ l := by
  induction l generalizing b with
  | nil => simp [maxByTimestamp] at h
  | cons m rest ih =>
    unfold maxByTimestamp at h
    cases h2 : maxByTimestamp rest with
    | none =>
      simp only [h2, Option.some.injEq] at h
      exact h ▸ List.mem_cons_self m rest
    | some b2 =>
      simp only [h2] at h
      by_cases hgt : b2.timestamp > m.timestamp
      · rw [if_pos hgt] at h
        simp only [Option.some.injEq] at h
        exact List.mem_cons_of_mem m (h ▸ ih b2 h2)
      · rw [if_neg hgt] at h
        simp only [Option.some.injEq] at h
        exact h ▸ List.mem_cons_self m rest

/-- The result of `maxByTimestamp` has the greatest timestamp. -/
theorem maxByTimestamp_ge (l : List MessageRow) :
    ∀ b, maxByTimestamp l = some b → ∀ x ∈ l, x.timestamp ≤ b.timestamp := by
  induction l with
  | nil => intro b h; simp [maxByTimestamp] at h
  | cons m rest ih =>
    intro b h x hx
    unfold maxByTimestamp at h
    cases h2 : maxByTimestamp rest with
    | none =>
      have hrest := maxByTimestamp_none rest h2
      simp only [h2, Option.some.injEq] at h
      subst h
      subst hrest
      rcases List.mem_cons.1 hx with rfl | hx'
      · exact Nat.le_refl _
      · simp at hx'
    | some b2 =>
      simp only [h2] at h
      have hall := ih b2 h2
      rcases List.mem_cons.1 hx with rfl | hx'
      · split at h <;> simp only [Option.some.injEq] at h <;> subst h
        · omega
        · omega
      · have hx2 := hall x hx'
        split at h <;> simp only [Option.some.injEq] at h <;> subst h
        · omega
        · omega

/-- A `maxByTimestamp` of a nonempty list exists. -/
theorem maxByTimestamp_of_ne_nil (l : List MessageRow) (h : l ≠ []) :
    ∃ b, maxByTimestamp l = some b := by
  cases l with
  | nil => simp at h
  | cons m rest =>
    unfold maxByTimestamp
    cases maxByTimestamp rest with
    | none => exact ⟨m, rfl⟩
    | some b2 =>
      by_cases hgt : b2.timestamp > m.timestamp
      · exact ⟨b2, if_pos hgt⟩
      · exact ⟨m, if_neg hgt⟩

/-- In a list of pairwise distinct timestamps, two members sharing a
timestamp are the same row. -/
theorem pairwise_ne_timestamp_eq {l : List MessageRow}
    (hp : List.Pairwise (fun a b => a.timestamp ≠ b.timestamp) l)
    {a b : MessageRow} (ha : a ∈ l) (hb : b ∈ l)
    (hts : a.timestamp = b.timestamp) : a = b := by
  induction l with
  | nil => simp at ha
  | cons c t ih =>
    rcases List.pairwise_cons.1 hp with ⟨hc, ht⟩
    rcases List.mem_cons.1 ha with rfl | ha'
    · rcases List.mem_cons.1 hb with rfl | hb'
      · rfl
      · exact absurd hts (hc b hb')
    · rcases List.mem_cons.1 hb with rfl | hb'
      · exact absurd hts.symm (hc a ha')
      · exact ih ht ha' hb'

/-- In a games table with pairwise distinct ids, the peewee id lookup of
a member row finds exactly that row. -/
theorem find?_game_id (l : List GameRow) (g : GameRow)
    (hp : List.Pairwise (fun a b => a.id ≠ b.id) l) (hg : g ∈ l) :
    l.find? (fun x => x.id == g.id) = some g := by
  induction l with
  | nil => simp at hg
  | cons c t ih =>
    rcases List.pairwise_cons.1 hp with ⟨hc, ht⟩
    rcases List.mem_cons.1 hg with rfl | hg'
    · simp [List.find?_cons_of_pos]
    · have hne : (c.id == g.id) = false := by
        simpa using hc g hg'
      rw [List.find?_cons_of_neg _ (by simp [hne])]
      exact ih ht hg'

/-- Coherence of the channel cache at one discord id: the cache either
has no entry or the entry agrees with the current table row.  The
`game_ending` slip (mutating a fresh row while the cache keeps the old
object) is exactly a violation of this property. -/
def cacheCoherentFor (s : IhaState) (d : Nat) : Prop :=
  s.channelCache.lookup d = none ∨
  s.channelCache.lookup d = some (lookupChannel s.channels d)

/-- Under a coherent cache entry, `channel_get` answers exactly what the
`Channels` table holds. -/
theorem channel_get_coherent (s : IhaState) (d : Nat)
    (hco : cacheCoherentFor s d) :
    (channel_get s d).2 = lookupChannel s.channels d := by
  rcases hco with h | h
  · simp only [channel_get, h]
    rcases h2 : lookupChannel s.channels d with _ | chan
    · simp only [h2]
    · simp only [h2]
  · simp only [channel_get, h]

/-- The `Words` row `channel_message` resolves for a token (step 3 of
the pipeline). -/
def resolvedWord (s : IhaState) (tok : Str) : WordRow :=
  (word_upsert s tok (some WORD_SOURCE_GAME)).2

/-- The chain check of the pipeline as a predicate on the pre-state:
true when a most recent accepted turn of game `g` exists and the
candidate's first character differs from its word's last character. -/
def chainFailB (s : IhaState) (tok : Str) (g : Option Nat) : Bool :=
  ((lastValidMessage (word_upsert s tok (some WORD_SOURCE_GAME)).1.words
      s.messages g).map (fun lm => headCh tok != lastCh lm.word)).getD false

/-- The repeat-check query of the pipeline on the pre-state: all turns
of game `g` referencing the resolved word. -/
def repeatRows (s : IhaState) (tok : Str) (g : Option Nat) : List MessageRow :=
  s.messages.filter (fun m => m.game == g && m.word == (resolvedWord s tok).word)

/-- Step 4's test: the resolved word was previously rejected. -/
def srcRejectedB (s : IhaState) (tok : Str) : Bool :=
  (resolvedWord s tok).source == some WORD_SOURCE_REJECTED

/-- Step 5's test: the resolved word was introduced via game play. -/
def fromGameB (s : IhaState) (tok : Str) : Bool :=
  (resolvedWord s tok).source == some WORD_SOURCE_GAME

/-- Step 5's provisional state. -/
def provisionalState (s : IhaState) (tok : Str) : Nat :=
  if fromGameB s tok then MESSAGE_STATE_UNKNOWN else MESSAGE_STATE_OK

/-- The pipeline's final `reject_word` flag on the pre-state. -/
def rejectB (s : IhaState) (tok : Str) (g : Option Nat) : Bool :=
  srcRejectedB s tok || chainFailB s tok g || !(repeatRows s tok g).isEmpty

/-- Characterization of `channel_message` on a single-token move that
passes the gate: the words table and word cache end as `word_upsert`
leaves them; a rejected candidate writes no `Messages` row and no
`Users` row; an accepted candidate appends exactly one `Messages` row
carrying the resolved word, the cached `current_game`, the provisional
state and the message's timestamp; a previously-rejected source yields
the thumbs-down reaction and the "previously rejected" reply line. -/
theorem channel_message_processed (s : IhaState) (msg : DiscordMessage)
    (chan : ChannelRow) (tok : Str)
    (hcg : (channel_get s msg.channel.id).2 = some chan)
    (hrun : chan.game_running = true)
    (hparse : parse_message msg.clean_content = [tok]) :
    (channel_message s msg).1.words =
        (word_upsert s tok (some WORD_SOURCE_GAME)).1.words ∧
    (channel_message s msg).1.wordCache =
        (word_upsert s tok (some WORD_SOURCE_GAME)).1.wordCache ∧
    (rejectB s tok chan.current_game = true →
       (channel_message s msg).2.2 = none ∧
       (channel_message s msg).1.messages = s.messages ∧
       (channel_message s msg).1.users = s.users) ∧
    (rejectB s tok chan.current_game = false →
       ∃ uid,
         (channel_message s msg).2.2 =
           some { id := s.nextMessageId, timestamp := msg.created_at,
                  state := provisionalState s tok, content := msg.clean_content,
                  word := (resolvedWord s tok).word, game := chan.current_game,
                  channel := chan.id, user := uid } ∧
         (channel_message s msg).1.messages =
           s.messages ++
             [{ id := s.nextMessageId, timestamp := msg.created_at,
                state := provisionalState s tok, content := msg.clean_content,
                word := (resolvedWord s tok).word, game := chan.current_game,
                channel := chan.id, user := uid }]) ∧
    (srcRejectedB s tok = true →
       Effect.react Emoji.thumbDown ∈ (channel_message s msg).2.1 ∧
       ∃ rs, Effect.reply rs ∈ (channel_message s msg).2.1 ∧
             RejectReason.previouslyRejected tok ∈ rs) := by
  obtain ⟨cc, hcc⟩ := channel_get_state s msg.channel.id
  obtain ⟨wl, wc, nw, hws⟩ := word_upsert_state s tok (some WORD_SOURCE_GAME)
  have hwu := word_upsert_channelCache s cc tok (some WORD_SOURCE_GAME)
  obtain ⟨ul, uc2, nu, hus⟩ := user_upsert_state
      { s with words := s.words ++ wl, wordCache := wc, nextWordId := nw,
               channelCache := cc } msg.author
  simp only [channel_message, hcg, hrun, Bool.not_true, Bool.false_eq_true,
    if_false, hparse, hcc, hwu, hws, hus, rejectB, srcRejectedB, chainFailB,
    repeatRows, resolvedWord, provisionalState, fromGameB]
  rcases hlv : lastValidMessage (s.words ++ wl) s.messages chan.current_game with _ | lm
  all_goals rcases hrep : List.filter (fun m => m.game == chan.current_game &&
      m.word == (word_upsert s tok (some WORD_SOURCE_GAME)).2.word) s.messages with _ | ⟨rm, rest⟩
  all_goals cases hsr : (word_upsert s tok (some WORD_SOURCE_GAME)).2.source == some WORD_SOURCE_REJECTED
  all_goals simp only [hlv, hrep, hsr]
  all_goals try simp
  all_goals try (by_cases hch : headCh tok = lastCh lm.word <;> simp [hch])
  all_goals exact ⟨by split <;> simp, ⟨_, Or.inr rfl, by simp⟩⟩

/-- When the gate rejects the channel, no game is running, or the
tokenizer does not yield exactly one token, `channel_message` is a
silent no-op: no reaction, no reply, no returned row, and no state
change beyond the channel-cache fill of the lookup itself. -/
theorem channel_message_not_processed (s : IhaState) (msg : DiscordMessage)
    (h : (channel_get s msg.channel.id).2 = none ∨
         (∃ chan, (channel_get s msg.channel.id).2 = some chan ∧
            chan.game_running = false) ∨
         parse_message msg.clean_content = [] ∨
         1 < (parse_message msg.clean_content).length) :
    (channel_message s msg).2.1 = [] ∧ (channel_message s msg).2.2 = none ∧
    ∃ cc, (channel_message s msg).1 = { s with channelCache := cc } := by
  obtain ⟨cc, hcc⟩ := channel_get_state s msg.channel.id
  rcases hg : (channel_get s msg.channel.id).2 with _ | chan
  · simp only [channel_message, hg]
    exact ⟨by simp, by simp, cc, hcc⟩
  · cases hrun : chan.game_running
    · simp only [channel_message, hg, hrun, Bool.not_false, if_true]
      exact ⟨by simp, by simp, cc, hcc⟩
    · rcases hp : parse_message msg.clean_content with _ | ⟨t1, rest⟩
      · simp only [channel_message, hg, hrun, Bool.not_true, Bool.false_eq_true,
          if_false, hp]
        exact ⟨by simp, by simp, cc, hcc⟩
      · cases rest with
        | nil =>
          rcases h with h1 | ⟨chan2, h2, h3⟩ | h4 | h5
          · rw [hg] at h1; cases h1
          · rw [hg] at h2
            simp only [Option.some.injEq] at h2
            rw [← h2] at h3
            rw [hrun] at h3
            cases h3
          · rw [hp] at h4; cases h4
          · rw [hp] at h5; simp at h5
        | cons t2 rest2 =>
          simp only [channel_message, hg, hrun, Bool.not_true, Bool.false_eq_true,
            if_false, hp]
          exact ⟨by simp, by simp, cc, hcc⟩

/-- A purely alphabetic token — the wording of spec step 2 ("accumulate
tokens while each is purely alphabetic"), for comparison against the
source tokenizer. -/
def pureAlpha (s : Str) : Bool :=
  !s.isEmpty && s.all (fun c => 97 ≤ c.toNat && c.toNat ≤ 122)

/-- The message "apple pie" arriving at time 30. -/
def applePieMsg : DiscordMessage :=
  { channel := chanG, author := userU,
    clean_content := ['a', 'p', 'p', 'l', 'e', ' ', 'p', 'i', 'e'],
    created_at := 30 }

/-- Counterexample to C5 as stated: the tokenizer does not stop at a
token that is not purely alphabetic — it only requires the first
character to be a lowercase letter, so "apple5" is kept as a token and
is processed (and persisted) as a move in a running game. -/
theorem tokenizer_keeps_nonalpha_token :
    parse_message appleFiveW = [appleFiveW] ∧
    pureAlpha appleFiveW = false ∧
    (channel_message sAfterStart appleFiveMsg).2.2 ≠ none ∧
    (channel_message sAfterStart appleFiveMsg).1.messages.length = 1 := by
  decide

/-- C5 (amended): tokenization splits on the delimiters and accumulates
tokens while each begins with an ASCII lowercase letter (stopping at the
first that does not); a message whose token result is empty or has more
than one token is ignored as a non-move — no reaction, no reply, no
persisted Turn, and the word and user tables are untouched. -/
theorem tokenize_single_word_moves_only (c : Str) (s : IhaState)
    (msg : DiscordMessage)
    (h : parse_message msg.clean_content = [] ∨
         1 < (parse_message msg.clean_content).length) :
    (∀ t ∈ parse_message c, startsLowerAlpha t = true) ∧
    (channel_message s msg).2.1 = [] ∧
    (channel_message s msg).2.2 = none ∧
    (channel_message s msg).1.messages = s.messages ∧
    (channel_message s msg).1.words = s.words ∧
    (channel_message s msg).1.users = s.users := by
  obtain ⟨e1, e2, cc, hcc⟩ :=
    channel_message_not_processed s msg (Or.inr (Or.inr h))
  exact ⟨parse_message_startsLower c, e1, e2, by rw [hcc], by rw [hcc], by rw [hcc]⟩

/-- Witness for the amended C5 at the concrete two-token message
"apple pie" in a running game. -/
theorem tokenize_single_word_moves_only_witness :
    (channel_message sAfterStart applePieMsg).2.1 = [] ∧
    (channel_message sAfterStart applePieMsg).2.2 = none ∧
    (channel_message sAfterStart applePieMsg).1.messages = sAfterStart.messages := by
  have h := tokenize_single_word_moves_only applePieMsg.clean_content sAfterStart
    applePieMsg (by decide)
  exact ⟨h.2.1, h.2.2.1, h.2.2.2.1⟩

/-- A registered channel with a running game (game 1), where "apple" is
a list-loaded word that is also in the `BannedWords` set. -/
def sBanned : IhaState :=
  { words := [{ id := 1, word := appleW, source := some WORD_SOURCE_LIST }],
    bannedWords := [appleW],
    channels := [{ id := 1, discord_id := 100, name := some ['g'],
                   current_game := some 1, game_running := true }],
    games := [{ id := 1, timestamp := 5, channel := 1 }],
    users := [], messages := [], channelCache := [], wordCache := [],
    userCache := [], nextWordId := 2, nextChannelId := 2, nextGameId := 2,
    nextUserId := 1, nextMessageId := 1 }

/-- A registered channel with a running game, where "apple" is a word
whose `source` is `REJECTED`. -/
def sRejectedWord : IhaState :=
  { words := [{ id := 1, word := appleW, source := some WORD_SOURCE_REJECTED }],
    bannedWords := [],
    channels := [{ id := 1, discord_id := 100, name := some ['g'],
                   current_game := some 1, game_running := true }],
    games := [{ id := 1, timestamp := 5, channel := 1 }],
    users := [], messages := [], channelCache := [], wordCache := [],
    userCache := [], nextWordId := 2, nextChannelId := 2, nextGameId := 2,
    nextUserId := 1, nextMessageId := 1 }

/-- Counterexample to C3 as stated: a token in the `BannedWords` set
whose `Words.source` is not `REJECTED` is accepted — the pipeline never
queries `BannedWords`, so no "previously rejected" reason, no
thumbs-down, and a Turn is persisted anyway. -/
theorem banned_word_accepted :
    appleW ∈ sBanned.bannedWords ∧
    (channel_message sBanned appleMsg).2.1 = [] ∧
    (channel_message sBanned appleMsg).2.2 ≠ none ∧
    (channel_message sBanned appleMsg).1.messages.length = 1 := by
  decide

/-- C3 (amended): a single-word move candidate whose resolved Word has
`source == REJECTED` gets the "previously rejected" reject reason and a
thumbs-down reaction, and no Turn (and no User) is ever persisted for
it; membership in `BannedWords` is never consulted by the pipeline. -/
theorem source_rejected_never_persists (s : IhaState) (msg : DiscordMessage)
    (chan : ChannelRow) (tok : Str)
    (hcg : (channel_get s msg.channel.id).2 = some chan)
    (hrun : chan.game_running = true)
    (hparse : parse_message msg.clean_content = [tok])
    (hrej : srcRejectedB s tok = true) :
    (channel_message s msg).2.2 = none ∧
    (channel_message s msg).1.messages = s.messages ∧
    (channel_message s msg).1.users = s.users ∧
    Effect.react Emoji.thumbDown ∈ (channel_message s msg).2.1 ∧
    ∃ rs, Effect.reply rs ∈ (channel_message s msg).2.1 ∧
          RejectReason.previouslyRejected tok ∈ rs := by
  obtain ⟨_h1, _h2, h3, _h4, h5⟩ :=
    channel_message_processed s msg chan tok hcg hrun hparse
  have hrejT : rejectB s tok chan.current_game = true := by
    simp [rejectB, hrej]
  obtain ⟨r1, r2, r3⟩ := h3 hrejT
  obtain ⟨e1, e2⟩ := h5 hrej
  exact ⟨r1, r2, r3, e1, e2⟩

/-- Witness for the amended C3: the word "apple" with `source =
REJECTED` is rejected with a thumbs-down and nothing is persisted. -/
theorem source_rejected_never_persists_witness :
    (channel_message sRejectedWord appleMsg).2.2 = none ∧
    (channel_message sRejectedWord appleMsg).1.messages = sRejectedWord.messages ∧
    Effect.react Emoji.thumbDown ∈ (channel_message sRejectedWord appleMsg).2.1 := by
  have h := source_rejected_never_persists sRejectedWord appleMsg
    { id := 1, discord_id := 100, name := some ['g'],
      current_game := some 1, game_running := true }
    appleW (by decide) (by decide) (by decide) (by decide)
  exact ⟨h.1, h.2.1, h.2.2.2.1⟩

/-- A successful association-list lookup found an entry with that key. -/
theorem lookup_mem {α β : Type} [BEq α] [LawfulBEq α]
    (l : List (α × β)) (a : α) (b : β)
    (h : List.lookup a l = some b) : (a, b) ∈ l := by
  induction l with
  | nil => simp [List.lookup] at h
  | cons p t ih =>
    rw [List.lookup] at h
    split at h
    · rename_i heq
      simp only [Option.some.injEq] at h
      have : p.1 = a := by
        have h' : a = p.1 := by simpa using heq
        exact h'.symm
      have hp : p = (a, b) := by
        cases p
        simp only at this h
        rw [this, h]
      exact hp ▸ List.mem_cons_self p t
    · exact List.mem_cons_of_mem p (ih h)

/-- A fresh token (neither cached nor in the table) makes `word_upsert`
create exactly one row with the supplied source, append it to the
table, and cache it. -/
theorem word_upsert_creates (s : IhaState) (w : Str) (src : Option Nat)
    (hnew : ∀ r ∈ s.words, r.word ≠ normalizeWord w)
    (hcache : s.wordCache.lookup (normalizeWord w) = none) :
    word_upsert s w src =
      ({ s with words := s.words ++
                  [{ id := s.nextWordId, word := normalizeWord w, source := src }],
                nextWordId := s.nextWordId + 1,
                wordCache := (normalizeWord w,
                  { id := s.nextWordId, word := normalizeWord w, source := src })
                    :: s.wordCache },
       { id := s.nextWordId, word := normalizeWord w, source := src }) := by
  have hfind : List.find? (fun r => r.word == normalizeWord w) s.words = none := by
    rw [List.find?_eq_none]
    intro x hx
    simpa using hnew x hx
  simp only [word_upsert, hcache, hfind]

/-- The row `word_upsert` returns carries the normalized token, as long
as the word cache is well formed (every cache entry stores the row of
its own key — an invariant of all reachable states). -/
theorem word_upsert_word (s : IhaState) (w : Str) (src : Option Nat)
    (hwf : ∀ p ∈ s.wordCache, p.2.word = p.1) :
    (word_upsert s w src).2.word = normalizeWord w := by
  simp only [word_upsert]
  rcases h1 : List.lookup (normalizeWord w) s.wordCache with _ | wrec
  · simp only [h1]
    rcases h2 : List.find? (fun r => r.word == normalizeWord w) s.words with _ | wrec2
    · simp only [h2]
    · simp only [h2]
      have := List.find?_some h2
      simpa using this
  · simp only [h1]
    exact hwf (normalizeWord w, wrec) (lookup_mem s.wordCache (normalizeWord w) wrec h1)

/-- C10: a single-word move whose token is not yet in the `Words` table
grows the vocabulary before any validation runs — the pipeline creates
and caches a Word row with `source = GAME`, and this happens even when
the candidate is subsequently rejected; rejection leaves the `Messages`
and `Users` tables unchanged but not the `Words` table. -/
theorem rejected_candidate_grows_vocabulary (s : IhaState)
    (msg : DiscordMessage) (chan : ChannelRow) (tok : Str)
    (hcg : (channel_get s msg.channel.id).2 = some chan)
    (hrun : chan.game_running = true)
    (hparse : parse_message msg.clean_content = [tok])
    (hnew : ∀ r ∈ s.words, r.word ≠ normalizeWord tok)
    (hcache : s.wordCache.lookup (normalizeWord tok) = none) :
    (channel_message s msg).1.words =
      s.words ++ [{ id := s.nextWordId, word := normalizeWord tok,
                    source := some WORD_SOURCE_GAME }] ∧
    (channel_message s msg).1.wordCache.lookup (normalizeWord tok) =
      some { id := s.nextWordId, word := normalizeWord tok,
             source := some WORD_SOURCE_GAME } ∧
    ((channel_message s msg).2.2 = none →
       (channel_message s msg).1.messages = s.messages ∧
       (channel_message s msg).1.users = s.users) := by
  obtain ⟨h1, h2, h3, h4, _h5⟩ :=
    channel_message_processed s msg chan tok hcg hrun hparse
  have hcr := word_upsert_creates s tok (some WORD_SOURCE_GAME) hnew hcache
  refine ⟨?_, ?_, ?_⟩
  · rw [h1, hcr]
  · rw [h2, hcr]
    simp [List.lookup]
  · intro hnone
    cases hrejv : rejectB s tok chan.current_game
    · obtain ⟨uid, e1, _e2⟩ := h4 hrejv
      rw [e1] at hnone
      cases hnone
    · obtain ⟨_r1, r2, r3⟩ := h3 hrejv
      exact ⟨r2, r3⟩

/-- Witness for C10: the fresh word "apple" in a fresh game grows the
`Words` table with `source = GAME`. -/
theorem rejected_candidate_grows_vocabulary_witness :
    (channel_message sAfterStart appleMsg).1.words =
      sAfterStart.words ++ [{ id := 1, word := appleW,
                              source := some WORD_SOURCE_GAME }] := by
  have h := rejected_candidate_grows_vocabulary sAfterStart appleMsg
    { id := 1, discord_id := 100, name := some ['g'],
      current_game := some 1, game_running := true }
    appleW (by decide) (by decide) (by decide)
    (by intro r hr; simp [sAfterStart, sAfterAdd, emptyState, channel_add,
          game_start, channel_get, lookupChannel] at hr)
    (by decide)
  simpa using h.1

/-- An accepted Turn of game `g`: its `game` column references `g` and
its `state` is `UNKNOWN` or `OK`. -/
def acceptedInGame (g : Nat) (m : MessageRow) : Bool :=
  m.game == some g && isAcceptedState m.state

/-- The chain invariant over a `Messages` table: for every game, any
two accepted turns that are consecutive in timestamp order satisfy the
shiritori rule — the later word's first character is the earlier word's
last character. -/
def chainOK (msgs : List MessageRow) : Prop :=
  ∀ g : Nat, ∀ m1 ∈ msgs, ∀ m2 ∈ msgs,
    acceptedInGame g m1 = true → acceptedInGame g m2 = true →
    m1.timestamp < m2.timestamp →
    (∀ m3 ∈ msgs, acceptedInGame g m3 = true →
        m1.timestamp < m3.timestamp → ¬ m3.timestamp < m2.timestamp) →
    headCh m2.word = lastCh m1.word

/-- Appending a row whose timestamp is fresh preserves the chain
invariant, provided the row passed the chain check against the most
recent accepted turn of its game. -/
theorem chainOK_append (msgs : List MessageRow) (r : MessageRow)
    (words : List WordRow)
    (hinv : chainOK msgs)
    (hdist : List.Pairwise (fun a b => a.timestamp ≠ b.timestamp) msgs)
    (hfresh : ∀ m ∈ msgs, m.timestamp < r.timestamp)
    (hfk : ∀ m ∈ msgs, ∃ w ∈ words, w.word = m.word)
    (hgame : ∀ g : Nat, r.game = some g →
       ∀ lm, lastValidMessage words msgs (some g) = some lm →
         headCh r.word = lastCh lm.word) :
    chainOK (msgs ++ [r]) := by
  intro g m1 hm1 m2 hm2 hacc1 hacc2 hlt hcons
  rcases List.mem_append.1 hm1 with hm1' | hm1r
  · rcases List.mem_append.1 hm2 with hm2' | hm2r
    · -- both rows predate the append: the old invariant applies, and
      -- consecutiveness over the larger list implies it over the old one
      apply hinv g m1 hm1' m2 hm2' hacc1 hacc2 hlt
      intro m3 hm3 hacc3 h31
      exact hcons m3 (List.mem_append_left _ hm3) hacc3 h31
    · -- m2 is the appended row
      have hm2r' : m2 = r := by simpa using hm2r
      subst hm2r'
      have hrg : m2.game = some g := by
        have := hacc2
        simp only [acceptedInGame, Bool.and_eq_true, beq_iff_eq] at this
        exact this.1
      have hacc1' := hacc1
      simp only [acceptedInGame, Bool.and_eq_true, beq_iff_eq] at hacc1'
      -- m1 belongs to the chain-check query's result set
      have hm1L : m1 ∈ msgs.filter (fun m =>
          words.any (fun w => w.word == m.word) && m.game == some g &&
            isAcceptedState m.state) := by
        apply List.mem_filter.2
        refine ⟨hm1', ?_⟩
        obtain ⟨w, hw, hww⟩ := hfk m1 hm1'
        simp only [Bool.and_eq_true, List.any_eq_true, beq_iff_eq]
        exact ⟨⟨⟨w, hw, hww⟩, hacc1'.1⟩, hacc1'.2⟩
      have hLne : msgs.filter (fun m =>
          words.any (fun w => w.word == m.word) && m.game == some g &&
            isAcceptedState m.state) ≠ [] := by
        intro hempty
        rw [hempty] at hm1L
        cases hm1L
      obtain ⟨lm, hlm⟩ := maxByTimestamp_of_ne_nil _ hLne
      have hlmem := maxByTimestamp_mem _ lm hlm
      have hlmem' : lm ∈ msgs := (List.mem_filter.1 hlmem).1
      have hlprops := (List.mem_filter.1 hlmem).2
      have hacc_lm : acceptedInGame g lm = true := by
        simp only [Bool.and_eq_true] at hlprops
        simp only [acceptedInGame, Bool.and_eq_true]
        exact ⟨hlprops.1.2, hlprops.2⟩
      have hge : m1.timestamp ≤ lm.timestamp := maxByTimestamp_ge _ lm hlm m1 hm1L
      have hle : lm.timestamp ≤ m1.timestamp := by
        by_contra hgt
        push_neg at hgt
        exact (hcons lm (List.mem_append_left _ hlmem') hacc_lm hgt)
          (hfresh lm hlmem')
      have heq : m1.timestamp = lm.timestamp := Nat.le_antisymm hge hle
      have hm1lm : m1 = lm := pairwise_ne_timestamp_eq hdist hm1' hlmem' heq
      have hlv : lastValidMessage words msgs (some g) = some lm := hlm
      rw [hm1lm]
      exact hgame g hrg lm hlv
  · -- m1 would be the appended row: impossible, its timestamp is maximal
    have hm1r' : m1 = r := by simpa using hm1r
    rcases List.mem_append.1 hm2 with hm2' | hm2r
    · have h2 := hfresh m2 hm2'
      rw [hm1r'] at hlt
      omega
    · have hm2r' : m2 = r := by simpa using hm2r
      rw [hm1r', hm2r'] at hlt
      omega

/-- C1: for every Game, consecutive accepted Turns in timestamp order
chain correctly — `channel_message` preserves the invariant because it
queries the most recent Turn of the cached current game with state in
`{UNKNOWN, OK}` and rejects a candidate whose first character differs
from that Turn's word's last character.  Hypotheses: the invariant held
before, every `Messages` row references an existing `Words` row (the
`word` foreign key), the event's timestamp is fresh, timestamps are
pairwise distinct, and the word cache is well formed — all properties
of reachable states. -/
theorem chain_invariant_preserved (s : IhaState) (msg : DiscordMessage)
    (hinv : chainOK s.messages)
    (hfk : ∀ m ∈ s.messages, ∃ w ∈ s.words, w.word = m.word)
    (hfresh : ∀ m ∈ s.messages, m.timestamp < msg.created_at)
    (hdist : List.Pairwise (fun a b => a.timestamp ≠ b.timestamp) s.messages)
    (hwf : ∀ p ∈ s.wordCache, p.2.word = p.1) :
    chainOK (channel_message s msg).1.messages := by
  rcases hg : (channel_get s msg.channel.id).2 with _ | chan
  · obtain ⟨_, _, cc, hcc⟩ := channel_message_not_processed s msg (Or.inl hg)
    rw [hcc]
    exact hinv
  · cases hrun : chan.game_running
    · obtain ⟨_, _, cc, hcc⟩ := channel_message_not_processed s msg
        (Or.inr (Or.inl ⟨chan, hg, hrun⟩))
      rw [hcc]
      exact hinv
    · rcases hp : parse_message msg.clean_content with _ | ⟨tok, rest⟩
      · obtain ⟨_, _, cc, hcc⟩ := channel_message_not_processed s msg
          (Or.inr (Or.inr (Or.inl hp)))
        rw [hcc]
        exact hinv
      · cases rest with
        | cons t2 rest2 =>
          obtain ⟨_, _, cc, hcc⟩ := channel_message_not_processed s msg
            (Or.inr (Or.inr (Or.inr (by rw [hp]; simp))))
          rw [hcc]
          exact hinv
        | nil =>
          obtain ⟨_h1, _h2, h3, h4, _h5⟩ :=
            channel_message_processed s msg chan tok hg hrun hp
          cases hrej : rejectB s tok chan.current_game
          · -- accepted: the new row extends the chain legally
            obtain ⟨uid, _e1, e2⟩ := h4 hrej
            rw [e2]
            obtain ⟨wl, wc, nw, hws⟩ := word_upsert_state s tok (some WORD_SOURCE_GAME)
            have hrej' := hrej
            simp only [rejectB, Bool.or_eq_false_iff] at hrej'
            have hcf : chainFailB s tok chan.current_game = false := hrej'.1.2
            apply chainOK_append s.messages _ (s.words ++ wl) hinv hdist
            · intro m hm
              simpa using hfresh m hm
            · intro m hm
              obtain ⟨w, hw, hww⟩ := hfk m hm
              exact ⟨w, List.mem_append_left wl hw, hww⟩
            · intro g hrg lm hlv
              have hrg' : chan.current_game = some g := hrg
              rw [hrg'] at hcf
              simp only [chainFailB, hws] at hcf
              rw [hlv] at hcf
              have hchain : headCh tok = lastCh lm.word := by simpa using hcf
              have htok : startsLowerAlpha tok = true :=
                parse_message_startsLower msg.clean_content tok (by rw [hp]; simp)
              have hword : (word_upsert s tok (some WORD_SOURCE_GAME)).2.word
                  = normalizeWord tok :=
                word_upsert_word s tok (some WORD_SOURCE_GAME) hwf
              have hgoal : headCh (word_upsert s tok (some WORD_SOURCE_GAME)).2.word
                  = lastCh lm.word := by
                rw [hword, (normalizeWord_head tok htok).1]
                exact hchain
              exact hgoal
          · -- rejected: the table is unchanged
            obtain ⟨_r1, r2, _r3⟩ := h3 hrej
            rw [r2]
            exact hinv

/-- Witness for C1 at the fresh running game and the move "apple". -/
theorem chain_invariant_preserved_witness :
    chainOK (channel_message sAfterStart appleMsg).1.messages := by
  have hempty : sAfterStart.messages = [] := rfl
  apply chain_invariant_preserved sAfterStart appleMsg
  · intro g m1 hm1
    rw [hempty] at hm1
    cases hm1
  · intro m hm
    rw [hempty] at hm
    cases hm
  · intro m hm
    rw [hempty] at hm
    cases hm
  · rw [hempty]
    exact List.Pairwise.nil
  · intro p hp
    have hcache : sAfterStart.wordCache = [] := rfl
    rw [hcache] at hp
    cases hp

/-- The no-repeat invariant over a `Messages` table: within any one
game, no two accepted turns reference the same word. -/
def noRepeatOK (msgs : List MessageRow) : Prop :=
  ∀ g : Nat, List.Pairwise (fun m1 m2 => m1.word ≠ m2.word)
    (msgs.filter (fun m => acceptedInGame g m))

/-- Appending one row preserves per-game pairwise-distinct words when
the new row's word differs from every accepted row of its game. -/
theorem pairwise_word_append_single (l : List MessageRow) (r : MessageRow)
    (g : Nat)
    (hl : List.Pairwise (fun a b => a.word ≠ b.word)
        (l.filter (fun m => acceptedInGame g m)))
    (hcross : ∀ a ∈ l, acceptedInGame g a = true →
        acceptedInGame g r = true → a.word ≠ r.word) :
    List.Pairwise (fun a b => a.word ≠ b.word)
      ((l ++ [r]).filter (fun m => acceptedInGame g m)) := by
  rw [List.filter_append, List.pairwise_append]
  refine ⟨hl, ?_, ?_⟩
  · by_cases hpr : acceptedInGame g r = true <;>
      simp [List.filter_cons, hpr]
  · intro a ha b hb
    have ha' := List.mem_filter.1 ha
    have hb' := List.mem_filter.1 hb
    have hbr : b = r := by
      have := hb'.1
      simpa using this
    subst hbr
    exact hcross a ha'.1 ha'.2 hb'.2

/-- C2: no Word is referenced by two distinct accepted Turns of one
Game — `channel_message` preserves the invariant because it queries all
Turns of the cached current game referencing the candidate's Word and
drops the candidate when any exist; no storage-level uniqueness
constraint is involved. -/
theorem no_repeat_preserved (s : IhaState) (msg : DiscordMessage)
    (hinv : noRepeatOK s.messages) :
    noRepeatOK (channel_message s msg).1.messages := by
  rcases hg : (channel_get s msg.channel.id).2 with _ | chan
  · obtain ⟨_, _, cc, hcc⟩ := channel_message_not_processed s msg (Or.inl hg)
    rw [hcc]
    exact hinv
  · cases hrun : chan.game_running
    · obtain ⟨_, _, cc, hcc⟩ := channel_message_not_processed s msg
        (Or.inr (Or.inl ⟨chan, hg, hrun⟩))
      rw [hcc]
      exact hinv
    · rcases hp : parse_message msg.clean_content with _ | ⟨tok, rest⟩
      · obtain ⟨_, _, cc, hcc⟩ := channel_message_not_processed s msg
          (Or.inr (Or.inr (Or.inl hp)))
        rw [hcc]
        exact hinv
      · cases rest with
        | cons t2 rest2 =>
          obtain ⟨_, _, cc, hcc⟩ := channel_message_not_processed s msg
            (Or.inr (Or.inr (Or.inr (by rw [hp]; simp))))
          rw [hcc]
          exact hinv
        | nil =>
          obtain ⟨_h1, _h2, h3, h4, _h5⟩ :=
            channel_message_processed s msg chan tok hg hrun hp
          cases hrej : rejectB s tok chan.current_game
          · -- accepted: the repeat check guarantees the word is new to
            -- this game
            obtain ⟨uid, _e1, e2⟩ := h4 hrej
            rw [e2]
            intro g
            apply pairwise_word_append_single _ _ g (hinv g)
            intro a ha hacca haccr
            have hrg : chan.current_game = some g := by
              simp only [acceptedInGame, Bool.and_eq_true, beq_iff_eq] at haccr
              exact haccr.1
            have hrej' := hrej
            simp only [rejectB, Bool.or_eq_false_iff] at hrej'
            have hrep := hrej'.2
            rw [hrg] at hrep
            have hrepnil : repeatRows s tok (some g) = [] := by
              simpa [List.isEmpty_iff] using hrep
            intro hword
            have hmem : a ∈ repeatRows s tok (some g) := by
              simp only [repeatRows]
              apply List.mem_filter.2
              refine ⟨ha, ?_⟩
              simp only [acceptedInGame, Bool.and_eq_true, beq_iff_eq] at hacca
              simp only [Bool.and_eq_true, beq_iff_eq]
              exact ⟨hacca.1, hword⟩
            rw [hrepnil] at hmem
            cases hmem
          · -- rejected: the table is unchanged
            obtain ⟨_r1, r2, _r3⟩ := h3 hrej
            rw [r2]
            exact hinv

/-- Witness for C2 at the fresh running game and the move "apple". -/
theorem no_repeat_preserved_witness :
    noRepeatOK (channel_message sAfterStart appleMsg).1.messages := by
  apply no_repeat_preserved sAfterStart appleMsg
  intro g
  have hempty : sAfterStart.messages = [] := rfl
  rw [hempty]
  simp

/-- The state invariant of spec §3/§8: for every Channel record — both
the table rows and the cached snapshots — `game_running` is true
exactly when `current_game` is non-null. -/
def stateInv (s : IhaState) : Prop :=
  (∀ c ∈ s.channels, c.game_running = c.current_game.isSome) ∧
  (∀ p ∈ s.channelCache, ∀ c, p.2 = some c →
     c.game_running = c.current_game.isSome)

/-- A row of `replaceChannel l c'` is an old row or the replacement. -/
theorem replaceChannel_mem (l : List ChannelRow) (c' : ChannelRow)
    (c : ChannelRow) (h : c ∈ replaceChannel l c') : c ∈ l ∨ c = c' := by
  unfold replaceChannel at h
  obtain ⟨x, hx, hxc⟩ := List.mem_map.1 h
  by_cases hid : (x.id == c'.id) = true
  · rw [if_pos hid] at hxc
    exact Or.inr hxc.symm
  · rw [if_neg hid] at hxc
    exact Or.inl (hxc ▸ hx)

/-- `channel_get` preserves the state invariant, and the record it
yields satisfies the invariant. -/
theorem channel_get_stateInv (s : IhaState) (d : Nat) (h : stateInv s) :
    stateInv (channel_get s d).1 ∧
    (∀ c, (channel_get s d).2 = some c →
       c.game_running = c.current_game.isSome) := by
  simp only [channel_get]
  rcases h1 : List.lookup d s.channelCache with _ | v
  · simp only [h1]
    rcases h2 : lookupChannel s.channels d with _ | chan
    · simp only [h2]
      refine ⟨⟨h.1, ?_⟩, ?_⟩
      · intro p hp c hpc
        rcases List.mem_cons.1 hp with rfl | hp'
        · cases hpc
        · exact h.2 p hp' c hpc
      · intro c hc
        cases hc
    · simp only [h2]
      have hchan : chan ∈ s.channels :=
        List.mem_of_find?_eq_some h2
      refine ⟨⟨h.1, ?_⟩, ?_⟩
      · intro p hp c hpc
        rcases List.mem_cons.1 hp with rfl | hp'
        · simp only [Option.some.injEq] at hpc
          exact hpc ▸ h.1 chan hchan
        · exact h.2 p hp' c hpc
      · intro c hc
        simp only [Option.some.injEq] at hc
        exact hc ▸ h.1 chan hchan
  · simp only [h1]
    refine ⟨h, ?_⟩
    intro c hc
    exact h.2 (d, v) (lookup_mem s.channelCache d v h1) c hc

/-- C6: `gameRunning == (currentGame != null)` for every Channel at
every reachable state — registration (`channel_add`), `game_start` and
`game_ending` all preserve the equivalence. -/
theorem state_invariant_preserved (s : IhaState) (ch : DiscordChannel)
    (now : Nat) (h : stateInv s) :
    stateInv (channel_add s ch).1 ∧
    stateInv (game_start s ch now).1 ∧
    stateInv (game_ending s ch).1 := by
  refine ⟨?_, ?_, ?_⟩
  · -- channel_add
    simp only [channel_add]
    rcases h1 : lookupChannel s.channels ch.id with _ | chanR
    · simp only [h1]
      constructor
      · intro c hc
        rcases List.mem_append.1 hc with hc' | hc'
        · exact h.1 c hc'
        · have hc2 := List.mem_singleton.1 hc'
          rw [hc2]
          rfl
      · intro p hp c hpc
        rcases List.mem_cons.1 hp with rfl | hp'
        · simp only [Option.some.injEq] at hpc
          rw [← hpc]
          rfl
        · exact h.2 p hp' c hpc
    · have hchan : chanR ∈ s.channels := List.mem_of_find?_eq_some h1
      have hinvR := h.1 chanR hchan
      simp only [h1]
      by_cases hname : (chanR.name == some ch.name) = true
      · rw [if_pos hname]
        constructor
        · exact h.1
        · intro p hp c hpc
          rcases List.mem_cons.1 hp with rfl | hp'
          · simp only [Option.some.injEq] at hpc
            exact hpc ▸ hinvR
          · exact h.2 p hp' c hpc
      · rw [if_neg hname]
        constructor
        · intro c hc
          rcases replaceChannel_mem s.channels _ c hc with hc' | hc'
          · exact h.1 c hc'
          · rw [hc']
            exact hinvR
        · intro p hp c hpc
          rcases List.mem_cons.1 hp with rfl | hp'
          · simp only [Option.some.injEq] at hpc
            exact hpc ▸ hinvR
          · exact h.2 p hp' c hpc
  · -- game_start
    obtain ⟨hs1, hgood⟩ := channel_get_stateInv s ch.id h
    simp only [game_start]
    rcases h1 : (channel_get s ch.id).2 with _ | chan
    · simp only [h1]
      exact hs1
    · simp only [h1]
      by_cases hrun : chan.game_running = true
      · rw [if_pos hrun]
        exact hs1
      · rw [if_neg hrun]
        constructor
        · intro c hc
          rcases replaceChannel_mem _ _ c hc with hc' | hc'
          · exact hs1.1 c hc'
          · rw [hc']
            rfl
        · intro p hp c hpc
          rcases List.mem_cons.1 hp with rfl | hp'
          · simp only [Option.some.injEq] at hpc
            rw [← hpc]
            rfl
          · exact hs1.2 p hp' c hpc
  · -- game_ending
    obtain ⟨hs1, hgood⟩ := channel_get_stateInv s ch.id h
    simp only [game_ending]
    rcases h1 : (channel_get s ch.id).2 with _ | chan
    · simp only [h1]
      exact hs1
    · simp only [h1]
      rcases h2 : lookupChannel (channel_get s ch.id).1.channels ch.id with _ | fresh
      · simp only [h2]
        exact hs1
      · simp only [h2]
        by_cases hrun : fresh.game_running = true
        · rw [if_neg (by simp [hrun])]
          constructor
          · intro c hc
            rcases replaceChannel_mem _ _ c hc with hc' | hc'
            · exact hs1.1 c hc'
            · rw [hc']
              rfl
          · exact hs1.2
        · rw [if_pos (by simp [Bool.not_eq_true] at hrun ⊢; exact hrun)]
          exact hs1

/-- Equality of `Except` results is decidable componentwise. -/
instance {e a : Type} [DecidableEq e] [DecidableEq a] :
    DecidableEq (Except e a) := fun x y =>
  match x, y with
  | Except.error u, Except.error v =>
    decidable_of_iff (u = v) ⟨fun h => by rw [h], fun h => by injection h⟩
  | Except.ok u, Except.ok v =>
    decidable_of_iff (u = v) ⟨fun h => by rw [h], fun h => by injection h⟩
  | Except.error _, Except.ok _ => isFalse (fun h => Except.noConfusion h)
  | Except.ok _, Except.error _ => isFalse (fun h => Except.noConfusion h)

/-- Counterexample to C8 as stated: after `add`, `start`, `end`, the
stored channel row is registered and IDLE (`game_running = false`,
`current_game = none`), yet a further `start` fails with
`AlreadyRunningError` and creates no Game — `game_start` reads the
stale cached record that `game_ending` never updated. -/
theorem start_fails_on_idle_channel :
    (∀ c ∈ sAfterEnd.channels,
       c.discord_id = 100 ∧ c.game_running = false ∧ c.current_game = none) ∧
    (game_start sAfterEnd chanG 40).2 =
      Except.error (IhaError.alreadyRunning (some ['g'])) ∧
    (game_start sAfterEnd chanG 40).1.games = sAfterEnd.games := by
  decide

/-- C8 (amended): provided the cached channel entry (if any) agrees
with the stored row — which `game_ending` violates by leaving a stale
entry — `game_start` fails with `NotRegisteredError` on an unregistered
channel; fails with `AlreadyRunningError` naming the channel, creating
no Game and touching no channel row, when the channel is RUNNING; and
on an IDLE channel creates exactly one Game row, points the channel's
`current_game` at it with `game_running = true`, and returns it. -/
theorem game_start_spec (s : IhaState) (ch : DiscordChannel) (now : Nat)
    (hco : cacheCoherentFor s ch.id) :
    (lookupChannel s.channels ch.id = none →
       (game_start s ch now).2 = Except.error IhaError.notRegistered ∧
       (game_start s ch now).1.games = s.games ∧
       (game_start s ch now).1.channels = s.channels) ∧
    (∀ chan, lookupChannel s.channels ch.id = some chan →
       chan.game_running = true →
       (game_start s ch now).2 =
         Except.error (IhaError.alreadyRunning chan.name) ∧
       (game_start s ch now).1.games = s.games ∧
       (game_start s ch now).1.channels = s.channels) ∧
    (∀ chan, lookupChannel s.channels ch.id = some chan →
       chan.game_running = false →
       (game_start s ch now).2 =
         Except.ok { id := s.nextGameId, timestamp := now, channel := chan.id } ∧
       (game_start s ch now).1.games =
         s.games ++ [{ id := s.nextGameId, timestamp := now, channel := chan.id }] ∧
       (game_start s ch now).1.channels =
         replaceChannel s.channels
           { chan with current_game := some s.nextGameId, game_running := true }) := by
  have hch := channel_get_coherent s ch.id hco
  obtain ⟨cc, hcc⟩ := channel_get_state s ch.id
  refine ⟨?_, ?_, ?_⟩
  · intro h0
    rw [h0] at hch
    simp only [game_start, hch, hcc]
    exact ⟨by simp, by simp, by simp⟩
  · intro chan hlk hrunT
    rw [hlk] at hch
    simp only [game_start, hch, hrunT, if_true, hcc]
    exact ⟨by simp, by simp, by simp⟩
  · intro chan hlk hrunF
    rw [hlk] at hch
    simp only [game_start, hch, hrunF, Bool.false_eq_true, if_false, hcc]
    exact ⟨by simp, by simp, by simp⟩

/-- Witness for the amended C8: a coherent fresh registration lets
`start` create game 1 at time 20. -/
theorem game_start_spec_witness :
    (game_start sAfterAdd chanG 20).2 =
      Except.ok { id := 1, timestamp := 20, channel := 1 } ∧
    (game_start sAfterAdd chanG 20).1.games =
      sAfterAdd.games ++ [{ id := 1, timestamp := 20, channel := 1 }] := by
  have h := (game_start_spec sAfterAdd chanG 20 (Or.inr rfl)).2.2
    { id := 1, discord_id := 100, name := some ['g'],
      current_game := none, game_running := false }
    (by decide) rfl
  exact ⟨h.1, h.2.1⟩

/-- C9: whenever the registration gate passes (`channel_get` yields
some record — true in every reachable registered state, stale cache
included, since both `game_start` and `game_ending` only ever cache
truthy records for registered channels), `game_ending` guards and
mutates the *freshly fetched* `Channels` row: on a registered channel
with no running game it fails with `NotRunningError` and changes no
table; on a running channel it clears `current_game` and
`game_running` on the stored row, returns the resolution of the prior
`current_game` reference — the current Game row, when game ids are
unique — and leaves the `Games` table (and `Messages`) untouched, so
the ended Game row stays queryable. -/
theorem game_ending_spec (s : IhaState) (ch : DiscordChannel)
    (hgate : (channel_get s ch.id).2 ≠ none) (chan : ChannelRow)
    (hlk : lookupChannel s.channels ch.id = some chan) :
    (chan.game_running = false →
       (game_ending s ch).2 = Except.error (IhaError.notRunning chan.name) ∧
       (game_ending s ch).1.channels = s.channels ∧
       (game_ending s ch).1.games = s.games ∧
       (game_ending s ch).1.messages = s.messages) ∧
    (chan.game_running = true →
       (game_ending s ch).2 = Except.ok (chan.current_game.bind
         (fun gid => s.games.find? (fun g => g.id == gid))) ∧
       (game_ending s ch).1.channels =
         replaceChannel s.channels
           { chan with current_game := none, game_running := false } ∧
       (game_ending s ch).1.games = s.games ∧
       (game_ending s ch).1.messages = s.messages ∧
       (∀ gm ∈ s.games, chan.current_game = some gm.id →
          List.Pairwise (fun a b => a.id ≠ b.id) s.games →
          (game_ending s ch).2 = Except.ok (some gm))) := by
  obtain ⟨cc, hcc⟩ := channel_get_state s ch.id
  rcases hgv : (channel_get s ch.id).2 with _ | v
  · exact absurd hgv hgate
  · constructor
    · intro hrunF
      simp only [game_ending, hgv, hcc, hlk, hrunF, Bool.not_false, if_true]
      exact ⟨by simp, by simp, by simp, by simp⟩
    · intro hrunT
      simp only [game_ending, hgv, hcc, hlk, hrunT, Bool.not_true,
        Bool.false_eq_true, if_false]
      refine ⟨by simp, by simp, by simp, by simp, ?_⟩
      intro gm hgm hcur hpw
      rw [hcur]
      simp only [Option.some_bind]
      rw [find?_game_id s.games gm hpw hgm]

/-- Witness for C9: `end` on the idle fresh channel fails with
`NotRunningError`; `end` on the running channel returns game 1 and
leaves the `Games` table intact; and a second `end` after `end` — the
reachable state whose cache entry is stale — still fails with
`NotRunningError` and changes nothing, because the guard reads the
fresh row. -/
theorem game_ending_spec_witness :
    (game_ending sAfterAdd chanG).2 =
      Except.error (IhaError.notRunning (some ['g'])) ∧
    (game_ending sAfterStart chanG).2 =
      Except.ok (some { id := 1, timestamp := 10, channel := 1 }) ∧
    (game_ending sAfterStart chanG).1.games = sAfterStart.games ∧
    (game_ending sAfterEnd chanG).2 =
      Except.error (IhaError.notRunning (some ['g'])) ∧
    (game_ending sAfterEnd chanG).1.channels = sAfterEnd.channels ∧
    (game_ending sAfterEnd chanG).1.games = sAfterEnd.games := by
  have h1 := (game_ending_spec sAfterAdd chanG (by decide)
    { id := 1, discord_id := 100, name := some ['g'],
      current_game := none, game_running := false } (by decide)).1 rfl
  have h2 := (game_ending_spec sAfterStart chanG (by decide)
    { id := 1, discord_id := 100, name := some ['g'],
      current_game := some 1, game_running := true } (by decide)).2 rfl
  have h3 := (game_ending_spec sAfterEnd chanG (by decide)
    { id := 1, discord_id := 100, name := some ['g'],
      current_game := none, game_running := false } (by decide)).1 rfl
  refine ⟨h1.1, ?_, h2.2.2.1, h3.1, h3.2.1, h3.2.2.1⟩
  exact h2.2.2.2.2 { id := 1, timestamp := 10, channel := 1 }
    (by decide) rfl
    (by rw [show sAfterStart.games = [{ id := 1, timestamp := 10, channel := 1 }] from rfl]
        exact List.pairwise_singleton _ _)

/-- C4 (evaluation of the code defect): after `add`, `start`, `end`,
every stored channel row says no game is running, yet the next incoming
message "apple" is not ignored — `channel_message` reads the stale
cached record, processes the move, and persists a `Messages` row into
game 1, the game that was already ended. -/
theorem message_processed_after_game_end :
    (∀ c ∈ sAfterEnd.channels, c.game_running = false ∧ c.current_game = none) ∧
    (∀ g ∈ sAfterEnd.games, g.id = 1) ∧
    (channel_message sAfterEnd appleMsg).1.messages =
      [{ id := 1, timestamp := 30, state := MESSAGE_STATE_UNKNOWN,
         content := appleW, word := appleW, game := some 1,
         channel := 1, user := 7 }] := by
  decide

/-- C7 (evaluation of the code defect): syncing a registered channel
whose history holds the single-word message "apple" raises `TypeError`
(`word_upsert` is called without its required `source` argument) before
any `Messages` row can be created — the state is returned unchanged. -/
theorem channel_sync_crashes :
    channel_sync sAfterAdd [{ clean_content := appleW, created_at := 5 }] =
      (sAfterAdd, Except.error PyError.typeErrorMissingSource) := by
  decide

/-- Witness for C6 at the empty database. -/
theorem state_invariant_preserved_witness :
    stateInv (channel_add emptyState chanG).1 ∧
    stateInv (game_start emptyState chanG 10).1 ∧
    stateInv (game_ending emptyState chanG).1 := by
  apply state_invariant_preserved emptyState chanG 10
  constructor
  · intro c hc
    have : emptyState.channels = [] := rfl
    rw [this] at hc
    cases hc
  · intro p hp
    have : emptyState.channelCache = [] := rfl
    rw [this] at hp
    cases hp

end IhaBot
